import Mathlib

/-!
# Verification of `advanced-vector/vector.h`

Shallow embedding of the two-layer dynamic array (`RawMemory` + `Vector`) from
`src/advanced-vector/vector.h`, together with theorems settling the frozen claims.

Modelling conventions:
* The live element range `[0, size)` of a `Vector<T>` is a `List α`; the raw
  capacity is a separate `Nat`.  `size_` is the list's length.
* Machine pointers become indices into the list.  A moved-from object keeps its
  value in the model (its slot is destroyed separately where the source does so).
* Code whose execution is undefined by the C++ standard (invalid algorithm
  ranges, `size_t` underflow feeding an assert or a pointer) returns `none`.
-/

set_option autoImplicit false

namespace AdvancedVector

variable {α : Type}

/-- `std::move_backward(first, last, d_last)` over a buffer `l`, with `f`, `la`,
`d` the indices of `first`, `last`, `d_last`.  The standard requires `[first, last)`
to be a valid range (`f ≤ la`) reachable in the buffer; `d_last` lies at or after
`last` in every use here.  The elements `l[f..la)` end up in `[d - (la - f), d)`;
in the value model the moved-from slots keep their values.  An invalid range is
undefined behavior: `none`. -/
def moveBackward (l : List α) (f la d : Nat) : Option (List α) :=
  if f ≤ la ∧ la ≤ d ∧ d ≤ l.length then
    some (l.take (d - (la - f)) ++ (l.take la).drop f ++ l.drop d)
  else
    none

/-- `std::move(first, last, d_first)` over a buffer `l`, with `f`, `la`, `d` the
indices of `first`, `last`, `d_first`; the destination must start at or before
`first` (the overlap direction `Vector::Erase` uses).  Each element of `l[f..la)`
is move-assigned into `[d, d + (la - f))`; moved-from slots keep their values.
An invalid range is undefined behavior: `none`. -/
def moveForward (l : List α) (f la d : Nat) : Option (List α) :=
  if f ≤ la ∧ d ≤ f ∧ la ≤ l.length then
    some (l.take d ++ (l.take la).drop f ++ l.drop (d + (la - f)))
  else
    none

/-- `std::uninitialized_move_n` / `std::uninitialized_copy_n` from the start of
`src` over `n` elements into a fresh block: the new block holds the first `n`
values (moves preserve values in the model). -/
def relocateN (src : List α) (n : Nat) : List α :=
  src.take n

/-- `Vector<T>`: `data` models the live range `[0, size_)` held in `data_`,
`cap` models `data_.Capacity()`. -/
structure Vec (α : Type) where
  data : List α
  cap : Nat
deriving DecidableEq, Repr

/-- `Vector::Size()`. -/
def Vec.size (v : Vec α) : Nat :=
  v.data.length

/-- `Vector::Capacity()`. -/
def Vec.capacity (v : Vec α) : Nat :=
  v.cap

/-- The default-constructed `Vector()`: size 0, capacity 0. -/
def Vec.empty : Vec α :=
  ⟨[], 0⟩

/-- The class invariant: `size_` never exceeds the raw block's capacity. -/
def Vec.wf (v : Vec α) : Prop :=
  v.data.length ≤ v.cap

instance (v : Vec α) : Decidable v.wf := by
  unfold Vec.wf; infer_instance

/-- `Vector::Reserve(new_capacity)` (lines 299-331): no-op when
`new_capacity <= data_.Capacity()`; otherwise allocate a block of exactly
`new_capacity`, relocate the `size_` live elements
(`uninitialized_move_n`/`uninitialized_copy_n`), `destroy_n` the originals and
swap blocks. -/
def Vec.reserve (v : Vec α) (n : Nat) : Vec α :=
  if n ≤ v.cap then
    v
  else
    { data := relocateN v.data v.data.length, cap := n }

/-- `Vector::Resize(new_size)` (lines 339-358): growing reserves then
value-constructs the new tail slots (`d` is the value-initialized element);
shrinking destroys the elements past `new_size`; `size_` is updated last. -/
def Vec.resizeD (v : Vec α) (n : Nat) (d : α) : Vec α :=
  if v.data.length < n then
    let v1 := v.reserve n
    { data := v1.data ++ List.replicate (n - v.data.length) d, cap := v1.cap }
  else
    { data := v.data.take n, cap := v.cap }

/-- `Vector::PopBack()` (lines 375-382) with its destruction instrumented:
under the `size_ > 0` guard it destroys the object at `end() - 1` and
decrements `size_`; the second component counts destructor calls made. -/
def Vec.popBackInstr (v : Vec α) : Vec α × Nat :=
  if 0 < v.data.length then
    ({ data := v.data.dropLast, cap := v.cap }, 1)
  else
    (v, 0)

/-- `Vector::PopBack()`, state part. -/
def Vec.popBack (v : Vec α) : Vec α :=
  v.popBackInstr.1

/-- `Vector::Emplace(pos, args...)` (lines 420-441) at `index = pos - cbegin()`,
inserting the value `x`; returns the updated vector and the index the returned
iterator `data_ + index` points at.

No-reallocation branch (`size_ < data_.Capacity()`, `Vector::NoRealloc`,
lines 443-457):
* `T temp{args...}` builds `x`;
* `new (end()) T{std::move(data_[size_ - 1])}` requires `size_ ≥ 1`: with
  `size_ = 0` the index `size_ - 1` underflows `size_t` and
  `RawMemory::operator[]`'s `assert(index < capacity_)` is violated — `none`;
* `std::move_backward(begin() + index, end() - 1, end())` requires the valid
  range `index ≤ size_ - 1`; `moveBackward` yields `none` otherwise;
* `data_[index] = std::move(temp)` writes `x` into slot `index`.

Reallocation branch (`Vector::Realloc`, lines 459-483): a fresh block of
`size_ == 0 ? 1 : size_ * 2` slots; `new (new_data + index) T{args...}` first
(`RawMemory::operator+` asserts `index ≤ capacity`), then the suffix
`[index, size_)` is relocated to `index + 1` and the prefix `[0, index)` to the
block start; `index > size_` would underflow the suffix count — `none`. -/
def Vec.emplace (v : Vec α) (index : Nat) (x : α) : Option (Vec α × Nat) :=
  if v.data.length < v.cap then
    if v.data.length = 0 then
      none
    else
      let b := v.data ++ v.data.drop (v.data.length - 1)
      match moveBackward b index (v.data.length - 1) v.data.length with
      | none => none
      | some s => some ({ data := s.set index x, cap := v.cap }, index)
  else
    if index ≤ v.data.length then
      some ({ data := v.data.take index ++ x :: (v.data.drop index).take (v.data.length - index),
              cap := if v.data.length = 0 then 1 else v.data.length * 2 }, index)
    else
      none

/-- `Vector::PushBack(value)` / `Vector::EmplaceBack(args...)`: both are
`Emplace(end(), ...)`, i.e. at `index = size_`. -/
def Vec.pushBack (v : Vec α) (x : α) : Option (Vec α) :=
  (v.emplace v.data.length x).map Prod.fst

/-- `Vector::Insert(pos, value)`: a wrapper over `Emplace`. -/
def Vec.insert (v : Vec α) (index : Nat) (x : α) : Option (Vec α × Nat) :=
  v.emplace index x

/-- `Vector::Erase(pos)` (lines 485-505) at `index = pos - cbegin()`; returns
the updated vector and the index of the returned iterator.  When `pos < cend()`:
`std::move(data_ + index + 1, end(), data_ + index)` shifts the tail one slot
left by move assignment, then `PopBack()` destroys the last slot, and
`data_ + index` is returned.  Otherwise `PopBack()` runs and the (new) `end()`
is returned. -/
def Vec.erase (v : Vec α) (pos : Nat) : Option (Vec α × Nat) :=
  if pos < v.data.length then
    match moveForward v.data (pos + 1) v.data.length pos with
    | none => none
    | some s =>
      some (Vec.popBack { data := s, cap := v.cap }, pos)
  else
    let v2 := v.popBack
    some (v2, v2.data.length)

/-- `Vector::operator=(const Vector&)` (lines 180-217), successful execution.
When `other.size_ > data_.Capacity()`: `Vector copy(other); Swap(copy)` — the
copy constructor allocates exactly `other.size_` slots and copy-constructs each
element, and the swap hands that state to `*this`.  Otherwise `copy_n` over the
common prefix of length `min(size_, other.size_)`, then either `destroy_n` of
the surplus tail or `uninitialized_copy_n` of the missing tail, and
`size_ = other.size_`.  (The `this != &other` guard changes nothing observable
here: for a well-formed vector self-assignment takes the second branch, which
rewrites each slot with its own value.) -/
def Vec.assignCopy (dst src : Vec α) : Vec α :=
  if dst.cap < src.data.length then
    { data := src.data, cap := src.data.length }
  else
    let min_size := min dst.data.length src.data.length
    let afterCopy := src.data.take min_size ++ dst.data.drop min_size
    if src.data.length < dst.data.length then
      { data := afterCopy.take src.data.length, cap := dst.cap }
    else
      { data := afterCopy ++ src.data.drop dst.data.length, cap := dst.cap }

/-- The copy constructor `Vector(const Vector&)` (lines 154-160) with failure
injection: `data_(other.size_)` allocates `other.size_` slots, then
`uninitialized_copy_n` copy-constructs the elements in order.  `failAt = some k`
with `k < other.size_` means the copy constructor of element `k` throws;
`uninitialized_copy_n` then destroys the `k` elements it built, the `RawMemory`
member releases the block, and the exception propagates: `none`. -/
def vecCopyCtor (src : Vec α) (failAt : Option Nat) : Option (Vec α) :=
  match failAt with
  | some k =>
    if k < src.data.length then
      none
    else
      some { data := src.data, cap := src.data.length }
  | none => some { data := src.data, cap := src.data.length }

/-- The reallocating branch of `Vector::operator=(const Vector&)` with failure
injection, tracking the destination across the call: `Vector copy(other)` runs
before `*this` is touched, so a throw during the temporary's construction
(`vecCopyCtor … = none`) unwinds with the destination in its original state
(`Except.error` carries the destination at unwind); on success `Swap(copy)`
hands the temporary's state to the destination.  Outside this branch the
operator works in place; failure injection is not modelled there. -/
def Vec.assignCopyExc (dst src : Vec α) (failAt : Option Nat) :
    Except (Vec α) (Vec α) :=
  if dst.cap < src.data.length then
    match vecCopyCtor src failAt with
    | none => Except.error dst
    | some c => Except.ok c
  else
    Except.ok (dst.assignCopy src)

/-! ## RawMemory (lines 17-124)

`buffer_` is `none` for `nullptr` and `some a` for a block at abstract address
`a`; `capacity_` is the element capacity. -/

/-- The `RawMemory<T>` state: `buffer_` (`none` = `nullptr`) and `capacity_`. -/
structure RawMem where
  buffer : Option Nat
  capacity : Nat
deriving DecidableEq, Repr

/-- `RawMemory::operator=(RawMemory&&)` (lines 41-50) for `this ≠ &other`:
`Swap(other)` exchanges both fields, `Deallocate(other.buffer_)` releases the
block `other` now holds (the target's old one) without changing the pointer
value, and `other.capacity_ = 0`.  Returns the new `*this`, the new `other`,
and the address released by the `Deallocate` call (`none`: released `nullptr`,
a no-op). -/
def RawMem.moveAssign (this_ other : RawMem) : RawMem × RawMem × Option Nat :=
  let t : RawMem := { buffer := other.buffer, capacity := other.capacity }
  let o : RawMem := { buffer := this_.buffer, capacity := this_.capacity }
  (t, { buffer := o.buffer, capacity := 0 }, o.buffer)

/-- `~RawMemory()` (lines 52-55): `Deallocate(buffer_)`; returns the address it
releases (`none` = releases `nullptr`, a no-op). -/
def RawMem.dtorFrees (r : RawMem) : Option Nat :=
  r.buffer

/-- The `RawMemory` invariant stated by the spec: address non-null iff
capacity > 0. -/
def RawMem.addrIffCap (r : RawMem) : Prop :=
  r.buffer.isSome ↔ 0 < r.capacity

instance (r : RawMem) : Decidable r.addrIffCap := by
  unfold RawMem.addrIffCap; infer_instance

/-! ## The old block during `Vector::Realloc` (lines 459-483) -/

/-- A storage slot: either holds a constructed (live) object or is dead. -/
inductive Slot (α : Type) where
  | dead : Slot α
  | live : α → Slot α
deriving DecidableEq, Repr

/-- `std::destroy_n(begin(), n)` on a block of slots: ends the lifetime of the
first `n` objects. -/
def destroyN (l : List (Slot α)) (n : Nat) : List (Slot α) :=
  (l.take n).map (fun _ => Slot.dead) ++ l.drop n

/-- Whether a slot still holds a constructed object. -/
def Slot.isLive : Slot α → Bool
  | Slot.dead => false
  | Slot.live _ => true

/-- The old block's `size_` slots at the moment of `data_.Swap(new_data)` in
`Vector::Realloc` (insertion at `index`).  The relocation loops
(`uninitialized_move_n` / `uninitialized_copy_n`) leave all `size_` source
objects constructed (a moved-from object is still live); the only destruction
before the swap is `std::destroy_n(begin(), size_ - index)` (line 481). -/
def reallocOldBlock (data : List α) (index : Nat) : List (Slot α) :=
  destroyN (data.map Slot.live) (data.length - index)

/-! ## The relocation policy (lines 316-325 and 469-479) -/

/-- The two compile-time facts the relocation policy consults. -/
structure Traits where
  nothrowMove : Bool
  copyConstructible : Bool
deriving DecidableEq, Repr

/-- The `if constexpr` condition shared verbatim by `Vector::Reserve`
(line 316) and `Vector::Realloc` (line 469):
`std::is_nothrow_move_constructible_v<T> || !std::is_copy_constructible_v<T>`.
`true` selects `uninitialized_move_n`, `false` selects
`uninitialized_copy_n`. -/
def relocatesByMove (t : Traits) : Bool :=
  t.nothrowMove || !t.copyConstructible

/-- Modelled from the spec's words, for comparison: "move elements if the
element type's move construction cannot fail, or if it has no copy constructor
at all; otherwise copy". -/
def specMovePolicy (t : Traits) : Bool :=
  t.nothrowMove || !t.copyConstructible

/-- Element-constructor calls `Vector::Reserve(n)` performs during relocation,
as (move-constructions, copy-constructions): none when `n ≤ capacity`;
otherwise all `size_` elements go through the branch `relocatesByMove`
selects. -/
def reserveOps (t : Traits) (v : Vec α) (n : Nat) : Nat × Nat :=
  if n ≤ v.cap then
    (0, 0)
  else if relocatesByMove t then
    (v.data.length, 0)
  else
    (0, v.data.length)

/-- Element-constructor calls `Vector::Realloc` performs while relocating into
the new block, insertion at `index` (the inserted element's own construction
excluded): the suffix loop handles `size_ - index` elements and the prefix loop
`index`, both through the branch `relocatesByMove` selects. -/
def reallocOps (t : Traits) (v : Vec α) (index : Nat) : Nat × Nat :=
  if relocatesByMove t then
    ((v.data.length - index) + index, 0)
  else
    (0, (v.data.length - index) + index)

/-! ## The public operations as a step relation (for the reachability claim) -/

/-- One public mutating operation, with the data it consumes.  Operations that
take another vector (`assignCopy`, `assignMove`, `swapWith`) carry it. -/
inductive Op (α : Type) where
  | reserve (n : Nat)
  | resize (n : Nat) (d : α)
  | push (x : α)
  | pop
  | emplaceAt (i : Nat) (x : α)
  | eraseAt (i : Nat)
  | assignCopy (src : Vec α)
  | assignMove (src : Vec α)
  | swapWith (src : Vec α)

/-- The operations the claim exempts from capacity monotonicity: being a move
source / `Swap`.  `assignMove` and `swapWith` replace the state wholesale. -/
def Op.isMoveOrSwap : Op α → Bool
  | Op.assignMove _ => true
  | Op.swapWith _ => true
  | _ => false

/-- Well-formedness of an operation's payload: any vector it carries satisfies
the class invariant. -/
def Op.wf : Op α → Prop
  | Op.assignCopy src => src.wf
  | Op.assignMove src => src.wf
  | Op.swapWith src => src.wf
  | _ => True

/-- Effect of one public operation on a vector's state, `none` where the
source's execution is undefined (and for `eraseAt` outside the documented
precondition `pos ∈ [begin, end]`).  `push` is `Emplace(end(), x)`;
`assignMove` and `swapWith` both end with the state of `src` (`operator=(&&)`
swaps, `Swap` exchanges). -/
def Vec.step (v : Vec α) : Op α → Option (Vec α)
  | Op.reserve n => some (v.reserve n)
  | Op.resize n d => some (v.resizeD n d)
  | Op.push x => v.pushBack x
  | Op.pop => some v.popBack
  | Op.emplaceAt i x => (v.emplace i x).map Prod.fst
  | Op.eraseAt i => if i ≤ v.data.length then (v.erase i).map Prod.fst else none
  | Op.assignCopy src => some (v.assignCopy src)
  | Op.assignMove src => some src
  | Op.swapWith src => some src

/-- Run a sequence of public operations from a starting state; `none` as soon
as one step is undefined. -/
def Vec.runOps (v : Vec α) : List (Op α) → Option (Vec α)
  | [] => some v
  | op :: ops =>
    match v.step op with
    | none => none
    | some v1 => v1.runOps ops

/-! ## Helper lemmas -/

theorem moveBackward_valid (l : List α) (f la d : Nat) (h1 : f ≤ la) (h2 : la ≤ d)
    (h3 : d ≤ l.length) :
    moveBackward l f la d = some (l.take (d - (la - f)) ++ (l.take la).drop f ++ l.drop d) := by
  unfold moveBackward
  rw [if_pos ⟨h1, h2, h3⟩]

theorem moveBackward_invalid (l : List α) (f la d : Nat) (h : ¬ f ≤ la) :
    moveBackward l f la d = none := by
  unfold moveBackward
  rw [if_neg (by tauto)]

theorem moveForward_valid (l : List α) (f la d : Nat) (h1 : f ≤ la) (h2 : d ≤ f)
    (h3 : la ≤ l.length) :
    moveForward l f la d = some (l.take d ++ (l.take la).drop f ++ l.drop (d + (la - f))) := by
  unfold moveForward
  rw [if_pos ⟨h1, h2, h3⟩]

/-- Splitting `l.drop i` at a cut `m` with `i ≤ m ≤ l.length`. -/
theorem drop_split (l : List α) (i m : Nat) (h1 : i ≤ m) (h2 : m ≤ l.length) :
    (l.take m).drop i ++ l.drop m = l.drop i := by
  conv_rhs => rw [← List.take_append_drop m l]
  rw [List.drop_append_eq_append_drop, List.length_take]
  have hm : i - m ⊓ l.length = 0 := by omega
  rw [hm, List.drop_zero]

/-- The buffer built by the no-reallocation branch, after the `set`, is the
insertion result: relocating the last element to the spare slot, shifting
`[i, n-1)` right, and overwriting slot `i` yields `take i ++ x :: drop i`. -/
theorem noRealloc_set_eq (l : List α) (i : Nat) (x : α) (h : i < l.length) :
    ((l ++ l.drop (l.length - 1)).take (l.length - (l.length - 1 - i)) ++
      ((l ++ l.drop (l.length - 1)).take (l.length - 1)).drop i ++
      (l ++ l.drop (l.length - 1)).drop l.length).set i x =
    l.take i ++ x :: l.drop i := by
  have e1 : l.length - (l.length - 1 - i) = i + 1 := by omega
  have htk : (l.take i).length = i := by rw [List.length_take]; omega
  rw [e1, List.take_append_of_le_length (by omega),
    List.take_append_of_le_length (by omega), List.drop_left,
    ← List.take_concat_get l i h, List.concat_eq_append, List.append_assoc,
    List.append_assoc]
  rw [List.set_append, if_neg (by rw [htk]; omega)]
  have e2 : i - (l.take i).length = 0 := by rw [htk]; omega
  rw [e2]
  simp only [List.singleton_append, List.set_cons_zero]
  rw [drop_split l i (l.length - 1) (by omega) (by omega)]

/-- `Vector::Emplace` on the no-reallocation branch at an interior index. -/
theorem emplace_noRealloc_eq (v : Vec α) (i : Nat) (x : α) (h1 : v.data.length < v.cap)
    (h2 : i < v.data.length) :
    v.emplace i x = some ({ data := v.data.take i ++ x :: v.data.drop i, cap := v.cap }, i) := by
  unfold Vec.emplace
  rw [if_pos h1, if_neg (by omega)]
  have hmb := moveBackward_valid (v.data ++ v.data.drop (v.data.length - 1)) i
    (v.data.length - 1) v.data.length (by omega) (by omega)
    (by simp only [List.length_append, List.length_drop]; omega)
  simp only [hmb, noRealloc_set_eq v.data i x h2]

/-- `Vector::Emplace` on the no-reallocation branch at `index = size_` (in
particular: every `PushBack`/`EmplaceBack` on a vector with spare capacity)
hands `std::move_backward` the invalid range `[begin() + size_, end() - 1)` —
undefined behavior. -/
theorem emplace_noRealloc_end_none (v : Vec α) (i : Nat) (x : α)
    (h1 : v.data.length < v.cap) (h2 : v.data.length ≤ i) :
    v.emplace i x = none := by
  unfold Vec.emplace
  rw [if_pos h1]
  by_cases h0 : v.data.length = 0
  · rw [if_pos h0]
  · rw [if_neg h0]
    simp only [moveBackward_invalid (v.data ++ v.data.drop (v.data.length - 1)) i
      (v.data.length - 1) v.data.length (by omega)]

/-- `Vector::Emplace` on the reallocation branch (`size_ == capacity`). -/
theorem emplace_realloc_eq (v : Vec α) (i : Nat) (x : α) (h1 : v.cap ≤ v.data.length)
    (h2 : i ≤ v.data.length) :
    v.emplace i x = some ({ data := v.data.take i ++ x :: v.data.drop i,
                            cap := if v.data.length = 0 then 1 else v.data.length * 2 }, i) := by
  unfold Vec.emplace
  rw [if_neg (by omega), if_pos h2]
  have e1 : v.data.length - i = (v.data.drop i).length := by simp
  rw [e1, List.take_length]

/-- Evaluation of `Vector::operator=(const Vector&)` (successful run): the
destination always ends with the source's element values; the capacity is
replaced by `other.size_` exactly when the reallocating branch ran. -/
theorem assignCopy_eq (dst src : Vec α) :
    dst.assignCopy src =
      { data := src.data,
        cap := if dst.cap < src.data.length then src.data.length else dst.cap } := by
  unfold Vec.assignCopy
  by_cases hg : dst.cap < src.data.length
  · rw [if_pos hg, if_pos hg]
  · rw [if_neg hg, if_neg hg]
    by_cases hlt : src.data.length < dst.data.length
    · rw [if_pos hlt]
      have hmin : dst.data.length ⊓ src.data.length = src.data.length := by omega
      rw [hmin, List.take_length, List.take_append_of_le_length (le_refl _),
        List.take_length]
    · rw [if_neg hlt]
      have hmin : dst.data.length ⊓ src.data.length = dst.data.length := by omega
      rw [hmin, List.drop_length, List.append_nil, List.take_append_drop]

theorem popBack_data (v : Vec α) : v.popBack = { data := v.data.dropLast, cap := v.cap } := by
  obtain ⟨d, c⟩ := v
  unfold Vec.popBack Vec.popBackInstr
  by_cases h : 0 < d.length
  · rw [if_pos h]
  · rw [if_neg h]
    have hd : d = [] := List.length_eq_zero.mp (by omega)
    subst hd
    rfl

theorem reserve_eval (v : Vec α) (n : Nat) :
    v.reserve n = { data := v.data, cap := if n ≤ v.cap then v.cap else n } := by
  unfold Vec.reserve relocateN
  by_cases h : n ≤ v.cap
  · rw [if_pos h, if_pos h]
  · rw [if_neg h, if_neg h, List.take_length]

theorem resizeD_eval (v : Vec α) (n : Nat) (d : α) :
    v.resizeD n d =
      { data := (v.data ++ List.replicate (n - v.data.length) d).take n,
        cap := if v.data.length < n then (if n ≤ v.cap then v.cap else n) else v.cap } := by
  unfold Vec.resizeD
  by_cases h : v.data.length < n
  · rw [if_pos h, if_pos h]
    simp only [reserve_eval]
    rw [List.take_append_eq_append_take, List.take_of_length_le (by omega),
      List.take_replicate]
    simp
  · rw [if_neg h, if_neg h, List.take_append_eq_append_take]
    have e1 : n - v.data.length = 0 := by omega
    rw [e1]
    simp

theorem emplace_realloc_past_none (v : Vec α) (i : Nat) (x : α)
    (h1 : v.cap ≤ v.data.length) (h2 : v.data.length < i) :
    v.emplace i x = none := by
  unfold Vec.emplace
  rw [if_neg (by omega), if_neg (by omega)]

theorem insert_list_length (l : List α) (i : Nat) (x : α) (h : i ≤ l.length) :
    (l.take i ++ x :: l.drop i).length = l.length + 1 := by
  rw [List.length_append, List.length_cons, List.length_take, List.length_drop]
  omega

/-- `Vector::Erase` at an interior position `i < size_`. -/
theorem erase_lt_eq (v : Vec α) (i : Nat) (h : i < v.data.length) :
    v.erase i = some ({ data := v.data.take i ++ v.data.drop (i + 1), cap := v.cap }, i) := by
  have hmf := moveForward_valid v.data (i + 1) v.data.length i (by omega) (by omega) le_rfl
  unfold Vec.erase
  rw [if_pos h]
  simp only [hmf, popBack_data]
  rw [List.take_length]
  have e : i + (v.data.length - (i + 1)) = v.data.length - 1 := by omega
  rw [e]
  obtain ⟨a, ha⟩ := List.length_eq_one.mp
    (show (v.data.drop (v.data.length - 1)).length = 1 by rw [List.length_drop]; omega)
  rw [ha, List.dropLast_concat]

/-- `Vector::Erase` at `position == end()` runs the `PopBack` branch and returns
the new `end()` index. -/
theorem erase_end_eq (v : Vec α) :
    v.erase v.data.length =
      some ({ data := v.data.dropLast, cap := v.cap }, v.data.dropLast.length) := by
  unfold Vec.erase
  rw [if_neg (lt_irrefl _)]
  simp only [popBack_data]

/-- Preservation of the invariant along one public operation, and capacity
monotonicity outside `assignMove`/`swapWith`. -/
theorem step_wf_cap (v v1 : Vec α) (op : Op α) (hwf : v.wf) (hop : op.wf)
    (h : v.step op = some v1) :
    v1.wf ∧ (op.isMoveOrSwap = false → v.cap ≤ v1.cap) := by
  unfold Vec.wf at hwf
  cases op with
  | reserve n =>
    simp only [Vec.step, Option.some.injEq] at h
    subst h
    rw [reserve_eval]
    constructor
    · unfold Vec.wf
      dsimp only
      split <;> omega
    · intro _
      dsimp only
      split <;> omega
  | resize n d =>
    simp only [Vec.step, Option.some.injEq] at h
    subst h
    rw [resizeD_eval]
    have hlen : ((v.data ++ List.replicate (n - v.data.length) d).take n).length ≤ n := by
      rw [List.length_take]; omega
    constructor
    · unfold Vec.wf
      dsimp only
      split
      · split <;> omega
      · omega
    · intro _
      dsimp only
      split
      · split <;> omega
      · omega
  | push x =>
    simp only [Vec.step] at h
    unfold Vec.pushBack at h
    by_cases hlt : v.data.length < v.cap
    · rw [emplace_noRealloc_end_none v _ x hlt le_rfl] at h
      simp at h
    · rw [emplace_realloc_eq v _ x (by omega) le_rfl] at h
      simp only [Option.map_some', Option.some.injEq] at h
      subst h
      unfold Vec.wf
      dsimp only
      rw [insert_list_length v.data _ x le_rfl]
      constructor
      · split <;> omega
      · intro _; split <;> omega
  | emplaceAt i x =>
    simp only [Vec.step] at h
    by_cases hlt : v.data.length < v.cap
    · by_cases hi : i < v.data.length
      · rw [emplace_noRealloc_eq v i x hlt hi] at h
        simp only [Option.map_some', Option.some.injEq] at h
        subst h
        unfold Vec.wf
        dsimp only
        rw [insert_list_length v.data i x (by omega)]
        exact ⟨by omega, fun _ => le_refl _⟩
      · rw [emplace_noRealloc_end_none v i x hlt (by omega)] at h
        simp at h
    · by_cases hi : i ≤ v.data.length
      · rw [emplace_realloc_eq v i x (by omega) hi] at h
        simp only [Option.map_some', Option.some.injEq] at h
        subst h
        unfold Vec.wf
        dsimp only
        rw [insert_list_length v.data i x hi]
        constructor
        · split <;> omega
        · intro _; split <;> omega
      · rw [emplace_realloc_past_none v i x (by omega) (by omega)] at h
        simp at h
  | pop =>
    simp only [Vec.step, Option.some.injEq] at h
    subst h
    rw [popBack_data]
    unfold Vec.wf
    dsimp only
    rw [List.length_dropLast]
    exact ⟨by omega, fun _ => le_refl _⟩
  | eraseAt i =>
    simp only [Vec.step] at h
    by_cases hle : i ≤ v.data.length
    · rw [if_pos hle] at h
      by_cases hi : i < v.data.length
      · rw [erase_lt_eq v i hi] at h
        simp only [Option.map_some', Option.some.injEq] at h
        subst h
        unfold Vec.wf
        dsimp only
        rw [List.length_append, List.length_take, List.length_drop]
        exact ⟨by omega, fun _ => le_refl _⟩
      · have hei : i = v.data.length := by omega
        subst hei
        rw [erase_end_eq v] at h
        simp only [Option.map_some', Option.some.injEq] at h
        subst h
        unfold Vec.wf
        dsimp only
        rw [List.length_dropLast]
        exact ⟨by omega, fun _ => le_refl _⟩
    · rw [if_neg hle] at h
      simp at h
  | assignCopy src =>
    simp only [Vec.step, Option.some.injEq] at h
    subst h
    rw [assignCopy_eq]
    unfold Vec.wf
    dsimp only
    constructor
    · split <;> omega
    · intro _; split <;> omega
  | assignMove src =>
    simp only [Vec.step, Option.some.injEq] at h
    subst h
    exact ⟨hop, fun hfalse => by simp [Op.isMoveOrSwap] at hfalse⟩
  | swapWith src =>
    simp only [Vec.step, Option.some.injEq] at h
    subst h
    exact ⟨hop, fun hfalse => by simp [Op.isMoveOrSwap] at hfalse⟩

/-- The invariant holds at the end of every defined run of public operations. -/
theorem runOps_wf (ops : List (Op α)) (v0 v : Vec α) (h0 : v0.wf)
    (hops : ∀ op ∈ ops, op.wf) (h : v0.runOps ops = some v) : v.wf := by
  induction ops generalizing v0 with
  | nil =>
    unfold Vec.runOps at h
    simp only [Option.some.injEq] at h
    subst h
    exact h0
  | cons op ops ih =>
    unfold Vec.runOps at h
    cases hstep : v0.step op with
    | none => rw [hstep] at h; simp at h
    | some v1 =>
      rw [hstep] at h
      exact ih v1
        (step_wf_cap v0 v1 op h0 (hops op (List.mem_cons_self op ops)) hstep).1
        (fun o ho => hops o (List.mem_cons_of_mem op ho)) h

/-! ## Claims -/

/-- C1: the spec scenario says pushing 1,2,3,4,5 onto an empty `Vector<int>`
gives sizes 1..5 and capacities 1,2,4,4,8, the fourth push (size 3, capacity 4,
no reallocation) appending 4 and leaving the first three elements unchanged.
The first three pushes (all reallocating) behave exactly as claimed, but the
fourth push runs `NoRealloc` with `index = size_ = 3` and hands
`std::move_backward` the invalid range `[begin() + 3, begin() + 2)` — undefined
behavior (`none`), not the claimed append. -/
theorem c1_push_sequence_fourth_push_undefined :
    Vec.pushBack (Vec.empty : Vec Nat) 1 = some ⟨[1], 1⟩ ∧
    Vec.pushBack (⟨[1], 1⟩ : Vec Nat) 2 = some ⟨[1, 2], 2⟩ ∧
    Vec.pushBack (⟨[1, 2], 2⟩ : Vec Nat) 3 = some ⟨[1, 2, 3], 4⟩ ∧
    Vec.pushBack (⟨[1, 2, 3], 4⟩ : Vec Nat) 4 = none := by
  decide

/-- C2: the claim says that on the reallocation path all `size` original
elements in the old block are destroyed before `data_.Swap(new_data)` and no
constructed element is left behind.  For the reachable `Realloc` call
`Emplace` at index 1 on a full vector of two elements (first conjunct),
`std::destroy_n(begin(), size_ - index)` destroys only slot 0: slot 1 is still
live at the swap and the block is released with a constructed element behind
(second and third conjuncts). -/
theorem c2_realloc_leaves_live_original :
    Vec.emplace (⟨[10, 20], 2⟩ : Vec Nat) 1 30 = some (⟨[10, 30, 20], 4⟩, 1) ∧
    reallocOldBlock ([10, 20] : List Nat) 1 = [Slot.dead, Slot.live 20] ∧
    ((reallocOldBlock ([10, 20] : List Nat) 1).filter Slot.isLive).length = 1 := by
  decide

/-- C3: the claim says a moved-from `RawMemory` has capacity zero and a null
block address, and destroying it releases nothing.  Moving a `RawMemory` at
address 9 into one owning address 7: the assignment itself releases 7 (third
component of `moveAssign`), yet leaves the source as `{buffer = 7, capacity = 0}`
— the address is not null, the non-null-iff-positive-capacity invariant fails,
and the source's destructor releases 7 a second time (double free). -/
theorem c3_rawmem_move_assign_dangling :
    RawMem.moveAssign ⟨some 7, 1⟩ ⟨some 9, 2⟩ = (⟨some 9, 2⟩, ⟨some 7, 0⟩, some 7) ∧
    ¬ RawMem.addrIffCap ⟨some 7, 0⟩ ∧
    RawMem.dtorFrees ⟨some 7, 0⟩ = some 7 := by
  decide

/-- C4: the claim says `Insert(begin() + i, x)` works for every `0 ≤ i ≤ S`.
It fails at `i = S` whenever the vector has spare capacity: on `[10, 20]` with
capacity 4, inserting at index 2 passes `std::move_backward` the invalid range
`[begin() + 2, begin() + 1)` — undefined behavior (first conjunct); inserting
into an empty vector with spare capacity reads `data_[size_ - 1]` with
`size_ = 0`, an underflowing index (fourth conjunct).  The nearby cases hold:
interior insertion with spare capacity and end insertion on a full vector
produce the claimed size, order and returned position (second and third
conjuncts). -/
theorem c4_insert_at_end_with_spare_capacity_undefined :
    Vec.insert (⟨[10, 20], 4⟩ : Vec Nat) 2 30 = none ∧
    Vec.insert (⟨[10, 20], 4⟩ : Vec Nat) 1 30 = some (⟨[10, 30, 20], 4⟩, 1) ∧
    Vec.insert (⟨[10, 20], 2⟩ : Vec Nat) 2 30 = some (⟨[10, 20, 30], 4⟩, 2) ∧
    Vec.insert ((Vec.empty : Vec Nat).reserve 4) 0 30 = none := by
  decide

/-- C5: wherever relocation to a new block occurs (`Reserve` and the
reallocating insert path `Realloc`), elements are move-constructed exactly when
the type's move constructor is non-throwing or the type has no copy
constructor, and copy-constructed otherwise; the shared `if constexpr`
condition agrees with the spec's wording, and a non-throwing move constructor
means growth performs zero copy constructions. -/
theorem c5_relocation_policy (t : Traits) (v : Vec α) (n i : Nat)
    (hn : v.cap < n) (hi : i ≤ v.data.length) :
    (relocatesByMove t = true →
      reserveOps t v n = (v.data.length, 0) ∧ reallocOps t v i = (v.data.length, 0)) ∧
    (relocatesByMove t = false →
      reserveOps t v n = (0, v.data.length) ∧ reallocOps t v i = (0, v.data.length)) ∧
    relocatesByMove t = specMovePolicy t ∧
    (t.nothrowMove = true →
      (reserveOps t v n).2 = 0 ∧ (reallocOps t v i).2 = 0) := by
  have e : (v.data.length - i) + i = v.data.length := by omega
  unfold reserveOps reallocOps
  rw [if_neg (by omega)]
  refine ⟨?_, ?_, rfl, ?_⟩
  · intro hm
    rw [hm]
    simp [e]
  · intro hm
    rw [hm]
    simp [e]
  · intro hm
    have : relocatesByMove t = true := by unfold relocatesByMove; rw [hm]; simp
    rw [this]
    simp

theorem c5_relocation_policy_witness :
    reserveOps ⟨true, true⟩ (⟨[7, 8], 2⟩ : Vec Nat) 5 = (2, 0) ∧
    reallocOps ⟨false, true⟩ (⟨[7, 8], 2⟩ : Vec Nat) 1 = (0, 2) :=
  ⟨((c5_relocation_policy ⟨true, true⟩ ⟨[7, 8], 2⟩ 5 1 (by decide) (by decide)).1 rfl).1,
    ((c5_relocation_policy ⟨false, true⟩ ⟨[7, 8], 2⟩ 5 1 (by decide) (by decide)).2.1 rfl).2⟩

/-- C6: for a non-empty vector and `i < Size()`, `Erase(begin() + i)` removes
exactly element `i` (the elements before `i` stay, those after shift one slot
left via move assignment, the last slot is destroyed), the size drops by
exactly one, and the returned iterator is `begin() + i`; called at `end()` it
acts as `PopBack` (dropping the last element) and returns the new `end()`,
i.e. index `Size() - 1`. -/
theorem c6_erase_shifts_left_and_returns_position (v : Vec α) (i : Nat) :
    (i < v.data.length →
      v.erase i = some ({ data := v.data.take i ++ v.data.drop (i + 1), cap := v.cap }, i) ∧
      (v.data.take i ++ v.data.drop (i + 1)).length + 1 = v.data.length) ∧
    (0 < v.data.length →
      v.erase v.data.length =
        some ({ data := v.data.dropLast, cap := v.cap }, v.data.length - 1)) := by
  constructor
  · intro hi
    refine ⟨erase_lt_eq v i hi, ?_⟩
    rw [List.length_append, List.length_take, List.length_drop]
    omega
  · intro h0
    rw [erase_end_eq v, List.length_dropLast]

theorem c6_erase_witness :
    (⟨[10, 20, 30], 3⟩ : Vec Nat).erase 1 = some (⟨[10, 30], 3⟩, 1) ∧
    (⟨[10, 20, 30], 3⟩ : Vec Nat).erase 3 = some (⟨[10, 20], 3⟩, 2) :=
  ⟨((c6_erase_shifts_left_and_returns_position ⟨[10, 20, 30], 3⟩ 1).1 (by decide)).1,
    (c6_erase_shifts_left_and_returns_position ⟨[10, 20, 30], 3⟩ 3).2 (by decide)⟩

/-- C7: copy assignment with `source.Size() > Capacity()` builds a complete
temporary copy and swaps.  If the copy construction of any element of the
temporary fails, the destination is exactly as before the call (strong
guarantee); on success the destination holds copies of all source elements
(with capacity equal to the source's size). -/
theorem c7_copy_assign_strong_guarantee (dst src : Vec α) (failAt : Option Nat)
    (h : dst.cap < src.data.length) :
    (∀ k, failAt = some k → k < src.data.length →
      dst.assignCopyExc src failAt = Except.error dst) ∧
    (failAt = none →
      dst.assignCopyExc src failAt = Except.ok ⟨src.data, src.data.length⟩) := by
  constructor
  · intro k hk hklt
    subst hk
    unfold Vec.assignCopyExc vecCopyCtor
    rw [if_pos h]
    dsimp only
    rw [if_pos hklt]
  · intro hn
    subst hn
    unfold Vec.assignCopyExc vecCopyCtor
    rw [if_pos h]

theorem c7_copy_assign_strong_guarantee_witness :
    (⟨[9], 1⟩ : Vec Nat).assignCopyExc ⟨[1, 2, 3], 3⟩ (some 1) = Except.error ⟨[9], 1⟩ ∧
    (⟨[9], 1⟩ : Vec Nat).assignCopyExc ⟨[1, 2, 3], 3⟩ none = Except.ok ⟨[1, 2, 3], 3⟩ :=
  ⟨(c7_copy_assign_strong_guarantee ⟨[9], 1⟩ ⟨[1, 2, 3], 3⟩ (some 1) (by decide)).1 1 rfl
      (by decide),
    (c7_copy_assign_strong_guarantee ⟨[9], 1⟩ ⟨[1, 2, 3], 3⟩ none (by decide)).2 rfl⟩

/-- C8: `Reserve(n)` with `n ≤ Capacity()` changes nothing at all; with
`n > Capacity()` the new capacity is exactly `n` and the stored elements (hence
also the size) are unchanged and in order. -/
theorem c8_reserve_frame (v : Vec α) (n : Nat) :
    (n ≤ v.cap → v.reserve n = v) ∧
    (v.cap < n → (v.reserve n).cap = n ∧ (v.reserve n).data = v.data) := by
  constructor
  · intro h
    rw [reserve_eval, if_pos h]
  · intro h
    rw [reserve_eval, if_neg (by omega)]
    exact ⟨rfl, rfl⟩

theorem c8_reserve_frame_witness :
    (⟨[5, 6], 3⟩ : Vec Nat).reserve 2 = ⟨[5, 6], 3⟩ ∧
    ((⟨[5, 6], 3⟩ : Vec Nat).reserve 7).cap = 7 ∧
    ((⟨[5, 6], 3⟩ : Vec Nat).reserve 7).data = [5, 6] :=
  ⟨(c8_reserve_frame ⟨[5, 6], 3⟩ 2).1 (by decide),
    (c8_reserve_frame ⟨[5, 6], 3⟩ 7).2 (by decide)⟩

/-- C9: every vector reachable by a sequence of the public operations satisfies
`Size() ≤ Capacity()`, and no single defined operation other than being a move
source (`assignMove`) or `Swap` (`swapWith`) ever decreases `Capacity()`. -/
theorem c9_invariant_and_capacity_monotone (α : Type) :
    (∀ (ops : List (Op α)) (v : Vec α),
      (∀ op ∈ ops, op.wf) → Vec.runOps Vec.empty ops = some v → v.wf) ∧
    (∀ (v v1 : Vec α) (op : Op α), v.wf → op.wf → v.step op = some v1 →
      v1.wf ∧ (op.isMoveOrSwap = false → v.cap ≤ v1.cap)) :=
  ⟨fun ops v hops h =>
    runOps_wf ops Vec.empty v (Nat.le_refl 0) hops h,
  fun v v1 op hwf hop h => step_wf_cap v v1 op hwf hop h⟩

theorem c9_invariant_and_capacity_monotone_witness :
    (⟨[1, 2], 2⟩ : Vec Nat).wf ∧ (1 : Nat) ≤ 2 :=
  ⟨(c9_invariant_and_capacity_monotone Nat).1 [Op.push 1, Op.push 2] ⟨[1, 2], 2⟩
      (by simp [Op.wf]) rfl,
    ((c9_invariant_and_capacity_monotone Nat).2 ⟨[1], 1⟩ ⟨[1, 2], 2⟩ (Op.push 2)
      (by decide) trivial rfl).2 rfl⟩

/-- C10: `PopBack()` on an empty vector is a harmless no-op thanks to the
`size_ > 0` guard — the state is unchanged and no destructor runs (destruction
count 0) — and consequently `Erase(end())` on an empty vector (position index
0) is also a no-op returning `end()` (index 0). -/
theorem c10_popback_empty_noop (v : Vec α) (h : v.data = []) :
    v.popBackInstr = (v, 0) ∧ v.erase 0 = some (v, 0) := by
  obtain ⟨d, c⟩ := v
  have hd : d = [] := h
  subst hd
  exact ⟨rfl, rfl⟩

theorem c10_popback_empty_noop_witness :
    (⟨[], 5⟩ : Vec Nat).popBackInstr = (⟨[], 5⟩, 0) ∧
    (⟨[], 5⟩ : Vec Nat).erase 0 = some (⟨[], 5⟩, 0) :=
  c10_popback_empty_noop ⟨[], 5⟩ rfl

end AdvancedVector
